import Mathlib

/-!
Verification of the shorttrack-youth result pipeline.

This file gives a shallow embedding, in Lean 4, of the pure data-processing
kernel of the repository's Python scripts:

* `scripts/build_time_trends.py` (namespace `BTT`): time/date/distance/name
  normalization, the plausibility filter, the three result loaders and the
  per-distance timeline deduplication;
* `data/parse_uss_pdfs.py` (namespace `PDFS`): the per-PDF result
  deduplication that keeps the best time per (skater, distance, category);
* `scripts/cross_validate_uss.py` (namespace `CVU`): the independent
  name/competition/time normalizers and the rank-discrepancy report.

Modelling conventions:

* Python strings are `List Char`; helper functions mirror `str.strip`,
  `str.split`, `str.lower`, `str.replace` and the concrete anchored regular
  expressions used by the scripts.
* Python `float` values are modelled as exact rationals (`ℚ`): every numeric
  claim of the specification is stated in exact decimal arithmetic, and the
  scripts use floats only as containers for parsed decimal literals.
* `float(...)` string conversion is modelled on optionally signed decimal
  literals (`digits`, `digits.`, `.digits`, `digits.digits`, surrounding
  whitespace allowed); exponent, `inf` and `nan` forms do not occur in race
  times and are mapped to `none`.
* Calendar dates are carried as proleptic-Gregorian day numbers (`ℤ`); the
  difference of two `datetime` values in days is then integer subtraction.
-/

/-- Python whitespace characters as stripped by `str.strip()` / matched by
regex `\s` (ASCII whitespace plus the no-break space that the scripts
explicitly normalize away). -/
def isWsChar (c : Char) : Bool :=
  c = ' ' || c = '\t' || c = '\n' || c = '\r' ||
  c = Char.ofNat 11 || c = Char.ofNat 12 || c = Char.ofNat 160

/-- ASCII digit test, the `\d` character class. -/
def isDigitChar (c : Char) : Bool := 48 ≤ c.toNat ∧ c.toNat ≤ 57

/-- Numeric value of one ASCII digit character. -/
def digitVal (c : Char) : ℕ :=
  if c = '1' then 1 else if c = '2' then 2 else if c = '3' then 3
  else if c = '4' then 4 else if c = '5' then 5 else if c = '6' then 6
  else if c = '7' then 7 else if c = '8' then 8 else if c = '9' then 9 else 0

/-- ASCII lower-casing of one character (`str.lower`). -/
def lowerChar (c : Char) : Char :=
  if 65 ≤ c.toNat ∧ c.toNat ≤ 90 then Char.ofNat (c.toNat + 32) else c

/-- ASCII upper-casing of one character (used by `str.title`). -/
def upperChar (c : Char) : Char :=
  if 97 ≤ c.toNat ∧ c.toNat ≤ 122 then Char.ofNat (c.toNat - 32) else c

/-- ASCII letter test (`a-z`, `A-Z`), the cased characters of these data. -/
def isAsciiLetter (c : Char) : Bool :=
  (65 ≤ c.toNat ∧ c.toNat ≤ 90) || (97 ≤ c.toNat ∧ c.toNat ≤ 122)

/-- Upper-case ASCII letter test. -/
def isUpperLetter (c : Char) : Bool := 65 ≤ c.toNat ∧ c.toNat ≤ 90

/-- Lower-case ASCII letter test (`[a-z]`). -/
def isLowerLetter (c : Char) : Bool := 97 ≤ c.toNat ∧ c.toNat ≤ 122

/-- `[a-z0-9]` character class. -/
def isLowerAlnum (c : Char) : Bool := isLowerLetter c || isDigitChar c

/-- `str.strip()`: drop leading and trailing whitespace. -/
def stripWs (cs : List Char) : List Char :=
  ((cs.dropWhile isWsChar).reverse.dropWhile isWsChar).reverse

/-- `str.lower()` on a whole string. -/
def lowerStr (cs : List Char) : List Char := cs.map lowerChar

/-- `str.split(sep)` for a one-character separator: splits at every
occurrence, keeping empty fields (`"".split(sep) == [""]`). -/
def splitOnChar (sep : Char) : List Char → List (List Char)
  | [] => [[]]
  | c :: rest =>
    match splitOnChar sep rest with
    | [] => [[c]]
    | h :: t => if c = sep then [] :: h :: t else (c :: h) :: t

/-- `str.split()` with no argument: the fields between maximal whitespace
runs, with no empty fields. -/
def splitWs : List Char → List (List Char)
  | [] => []
  | c :: rest =>
    if isWsChar c then splitWs rest
    else
      match rest with
      | [] => [[c]]
      | c2 :: _ =>
        match splitWs rest with
        | [] => [[c]]
        | h :: t => if isWsChar c2 then [c] :: h :: t else (c :: h) :: t

/-- `" ".join(parts)`. -/
def joinSpace : List (List Char) → List Char
  | [] => []
  | [p] => p
  | p :: rest => p ++ ' ' :: joinSpace rest

/-- Numeric value of a digit string (`int` on `"0..9"*`). -/
def digitsVal (cs : List Char) : ℕ := cs.foldl (fun a c => a * 10 + digitVal c) 0

/-- Value of a fractional digit string `f` read as `0.f`. -/
def fracVal (cs : List Char) : ℚ := (digitsVal cs : ℚ) / (10 : ℚ) ^ cs.length

/-- Unsigned decimal literal accepted by Python `float`: `digits`,
`digits.`, `.digits` or `digits.digits`. -/
def parseUnsignedFloat (cs : List Char) : Option ℚ :=
  let intPart := cs.takeWhile isDigitChar
  match cs.dropWhile isDigitChar with
  | [] => if intPart = [] then none else some (digitsVal intPart)
  | c :: frac =>
    if c = '.' ∧ frac.all isDigitChar ∧ (intPart ≠ [] ∨ frac ≠ []) then
      some ((digitsVal intPart : ℚ) + fracVal frac)
    else none

/-- Python `float(s)` on decimal literals: optional surrounding whitespace,
optional sign, unsigned decimal literal, exact rational result. -/
def parseFloat (cs : List Char) : Option ℚ :=
  match stripWs cs with
  | [] => parseUnsignedFloat []
  | c :: r =>
    if c = '+' then parseUnsignedFloat r
    else if c = '-' then (parseUnsignedFloat r).map Neg.neg
    else parseUnsignedFloat (c :: r)

namespace BTT

/-- `parse_time` of `scripts/build_time_trends.py` (lines 47-68): empty
string is `None`; a string containing `:` is split at every colon and the
first two fields are read as minutes and seconds; otherwise the whole string
is read as seconds. Any `float` failure yields `None`. -/
def parse_time (cs : List Char) : Option ℚ :=
  if cs = [] then none
  else
    let t := stripWs cs
    if ':' ∈ t then
      match splitOnChar ':' t with
      | p0 :: p1 :: _ =>
        match parseFloat p0, parseFloat p1 with
        | some mins, some secs => some (mins * 60 + secs)
        | _, _ => none
      | _ => none
    else parseFloat t

/-- The ordered range table `mappings` of `normalize_distance`
(`scripts/build_time_trends.py` lines 82-105): `((low, high), standard)`
in dict insertion order. -/
def mappings : List ((ℕ × ℕ) × ℕ) :=
  [((200, 240), 222), ((300, 360), 333), ((390, 430), 500), ((450, 550), 500),
   ((580, 620), 500), ((640, 700), 777), ((740, 820), 777), ((900, 1100), 1000),
   ((1400, 1600), 1500), ((1900, 2100), 1500), ((2800, 3200), 3000)]

/-- `normalize_distance` of `scripts/build_time_trends.py` (lines 70-119):
scan the ordered range table and return the first bucket containing the raw
distance; pass already-standard distances through; discard everything else
(Python's falsy test on the argument makes `0` behave like `None`). -/
def normalize_distance (d : ℕ) : Option ℕ :=
  if d = 0 then none
  else
    match mappings.find? (fun m => decide (m.1.1 ≤ d ∧ d ≤ m.1.2)) with
    | some m => some m.2
    | none =>
      if d ∈ [222, 333, 500, 777, 1000, 1500, 3000] then some d
      else if d < 200 ∨ d > 4000 then none
      else none

/-- The per-distance plausibility table of `is_valid_time_for_distance`
(`scripts/build_time_trends.py` lines 133-141). -/
def boundsFor (d : ℕ) : Option (ℚ × ℚ) :=
  if d = 222 then some (18, 90)
  else if d = 333 then some (25, 120)
  else if d = 500 then some (38, 150)
  else if d = 777 then some (60, 210)
  else if d = 1000 then some (80, 300)
  else if d = 1500 then some (130, 420)
  else if d = 3000 then some (280, 720)
  else none

/-- `is_valid_time_for_distance` of `scripts/build_time_trends.py`
(lines 121-148): falsy time or distance is invalid; configured distances use
their closed interval; unknown distances use the generic `[25, 600]`. -/
def is_valid_time_for_distance (t : ℚ) (d : ℕ) : Bool :=
  if t = 0 ∨ d = 0 then false
  else
    match boundsFor d with
    | some (lo, hi) => decide (lo ≤ t ∧ t ≤ hi)
    | none => decide ((25 : ℚ) ≤ t ∧ t ≤ 600)

/-- `name.replace('\xa0', ' ')` from `normalize_name` line 153. -/
def replaceNbsp (cs : List Char) : List Char :=
  cs.map fun c => if c = Char.ofNat 160 then ' ' else c

/-- `name.replace('  ', ' ')`: left-to-right non-overlapping replacement of
two consecutive spaces by one (`normalize_name` line 153). -/
def replaceTwoSpace : List Char → List Char
  | ' ' :: ' ' :: rest => ' ' :: replaceTwoSpace rest
  | c :: rest => c :: replaceTwoSpace rest
  | [] => []

/-- `re.sub(r'\s+[a-z]{2,3}-[a-z0-9]+$', '', name)` (`normalize_name`
line 157): remove one trailing club code such as `usa-pssp` — whitespace,
two or three letters, a dash and an alphanumeric tail ending the string.
The input is already lower-cased, so the `IGNORECASE` flag is inert.
The end-anchored pattern is matched by parsing the reversed string; the
leftmost match of the anchored pattern takes the maximal whitespace run and
the longer letter group, so the three-letter form is tried first. -/
def removeClubSuffix (cs : List Char) : List Char :=
  let r := cs.reverse
  let club := r.takeWhile isLowerAlnum
  let afterClub := r.dropWhile isLowerAlnum
  if club = [] then cs
  else
    match afterClub with
    | '-' :: rest2 =>
      let tryCode (k : ℕ) : Option (List Char) :=
        let code := rest2.take k
        let after := rest2.drop k
        if code.length = k ∧ code.all isLowerLetter ∧ after.takeWhile isWsChar ≠ [] then
          some ((after.dropWhile isWsChar).reverse)
        else none
      match tryCode 3 with
      | some res => res
      | none =>
        match tryCode 2 with
        | some res => res
        | none => cs
    | _ => cs

/-- The country codes of `normalize_name` line 160. -/
def countryCodes : List (List Char) :=
  [String.toList "usa", String.toList "can", String.toList "chn",
   String.toList "kor", String.toList "jpn", String.toList "ned",
   String.toList "ita", String.toList "rus", String.toList "gbr",
   String.toList "ger", String.toList "fra", String.toList "aus"]

/-- `re.sub(r'\s+(usa|can|...)$', '', name)` (`normalize_name` line 160):
remove one trailing standalone country code preceded by whitespace. All
alternatives are three letters, so the reversed-string parse takes the last
three characters and the maximal whitespace run before them. -/
def removeCountryCode (cs : List Char) : List Char :=
  let r := cs.reverse
  let code := (r.take 3).reverse
  let after := r.drop 3
  if code ∈ countryCodes ∧ after.takeWhile isWsChar ≠ [] then
    (after.dropWhile isWsChar).reverse
  else cs

/-- `re.sub(r'\*+$', '', name)` (`normalize_name` line 166). -/
def removeTrailingStars (cs : List Char) : List Char :=
  (cs.reverse.dropWhile (fun c => c = '*')).reverse

/-- `normalize_name` of `scripts/build_time_trends.py` (lines 150-171):
normalize spaces, lower-case, strip one trailing club suffix, one trailing
country code, leading digits (`re.sub(r'^\d+', '')`) and trailing
asterisks, and collapse whitespace runs. -/
def normalize_name (cs : List Char) : List Char :=
  let n1 := lowerStr (stripWs (replaceTwoSpace (replaceNbsp cs)))
  let n2 := removeClubSuffix n1
  let n3 := removeCountryCode n2
  let n4 := n3.dropWhile isDigitChar
  let n5 := removeTrailingStars n4
  joinSpace (splitWs n5)

/-- Leap-year rule of the proleptic Gregorian calendar used by
`datetime`. -/
def isLeap (y : ℕ) : Bool := y % 4 = 0 ∧ (y % 100 ≠ 0 ∨ y % 400 = 0)

/-- Days in a month, as `datetime` validates them. -/
def daysInMonth (y m : ℕ) : ℕ :=
  if m = 2 then (if isLeap y then 29 else 28)
  else if m ∈ [4, 6, 9, 11] then 30
  else 31

/-- Validity check performed by the `datetime(year, month, day)`
constructor: year in `[1, 9999]`, month in `[1, 12]`, day in range for the
month. -/
def validDate (y m d : ℕ) : Bool :=
  1 ≤ y ∧ y ≤ 9999 ∧ 1 ≤ m ∧ m ≤ 12 ∧ 1 ≤ d ∧ d ≤ daysInMonth y m

/-- Proleptic-Gregorian day number of a calendar date (days-from-civil
formula). Only differences of day numbers are ever used, mirroring
`(a - b).days` on midnight `datetime` values. -/
def dayNum (y m d : ℕ) : ℤ :=
  let yAdj : ℤ := if m ≤ 2 then (y : ℤ) - 1 else (y : ℤ)
  let era : ℤ := (if 0 ≤ yAdj then yAdj else yAdj - 399) / 400
  let yoe : ℤ := yAdj - era * 400
  let mp : ℤ := ((m : ℤ) + 9) % 12
  let doy : ℤ := (153 * mp + 2) / 5 + (d : ℤ) - 1
  let doe : ℤ := yoe * 365 + yoe / 4 - yoe / 100 + doy
  era * 146097 + doe - 719468

/-- `\d{1,2}\.` with greedy backtracking: one or two digits followed by a
literal dot; returns the value and the remaining characters. -/
def d12dot : List Char → Option (ℕ × List Char)
  | a :: rest =>
    if isDigitChar a then
      match rest with
      | b :: rest2 =>
        if isDigitChar b then
          match rest2 with
          | '.' :: r => some (10 * digitVal a + digitVal b, r)
          | _ => none
        else if b = '.' then some (digitVal a, rest2)
        else none
      | [] => none
    else none
  | [] => none

/-- `\d{4}`: exactly four digits at the head; returns the value. -/
def fourDigits (cs : List Char) : Option ℕ :=
  match cs with
  | a :: b :: c :: d :: _ =>
    if isDigitChar a ∧ isDigitChar b ∧ isDigitChar c ∧ isDigitChar d then
      some (digitVal a * 1000 + digitVal b * 100 + digitVal c * 10 + digitVal d)
    else none
  | _ => none

/-- Head match of `(\d{1,2})\.(\d{1,2})\.\s*-\s*\d{1,2}\.\d{1,2}\.(\d{4})`
(`parse_date` line 28); yields (day, month, year). -/
def matchRangeAt (cs : List Char) : Option (ℕ × ℕ × ℕ) :=
  match d12dot cs with
  | none => none
  | some (day, r1) =>
    match d12dot r1 with
    | none => none
    | some (month, r2) =>
      match r2.dropWhile isWsChar with
      | '-' :: r3 =>
        match d12dot (r3.dropWhile isWsChar) with
        | none => none
        | some (_, r4) =>
          match d12dot r4 with
          | none => none
          | some (_, r5) =>
            match fourDigits r5 with
            | some year => some (day, month, year)
            | none => none
      | _ => none

/-- `re.search` of the date-range pattern: leftmost match. -/
def searchRange : List Char → Option (ℕ × ℕ × ℕ)
  | [] => none
  | c :: rest =>
    match matchRangeAt (c :: rest) with
    | some v => some v
    | none => searchRange rest

/-- Head match of `(\d{1,2})\.(\d{1,2})\.(\d{4})` (`parse_date` line 37);
yields (day, month, year). -/
def matchDmyAt (cs : List Char) : Option (ℕ × ℕ × ℕ) :=
  match d12dot cs with
  | none => none
  | some (day, r1) =>
    match d12dot r1 with
    | none => none
    | some (month, r2) =>
      match fourDigits r2 with
      | some year => some (day, month, year)
      | none => none

/-- `re.search` of the `DD.MM.YYYY` pattern: leftmost match. -/
def searchDmy : List Char → Option (ℕ × ℕ × ℕ)
  | [] => none
  | c :: rest =>
    match matchDmyAt (c :: rest) with
    | some v => some v
    | none => searchDmy rest

/-- `datetime.strptime(date_str[:10], '%Y-%m-%d')`: exactly four year
digits, dash, one or two month digits (greedy), dash, one or two day digits,
consuming the whole (truncated) string; the resulting date must be valid. -/
def parseIso (cs : List Char) : Option (ℕ × ℕ × ℕ) :=
  let t := cs.take 10
  match t with
  | y1 :: y2 :: y3 :: y4 :: '-' :: rest =>
    if isDigitChar y1 ∧ isDigitChar y2 ∧ isDigitChar y3 ∧ isDigitChar y4 then
      let y := digitVal y1 * 1000 + digitVal y2 * 100 + digitVal y3 * 10 + digitVal y4
      let finish (m : ℕ) (ds : List Char) : Option (ℕ × ℕ × ℕ) :=
        match ds with
        | [d1] => if isDigitChar d1 then some (y, m, digitVal d1) else none
        | [d1, d2] =>
          if isDigitChar d1 ∧ isDigitChar d2 then some (y, m, 10 * digitVal d1 + digitVal d2)
          else none
        | _ => none
      match rest with
      | a :: b :: '-' :: ds =>
        if isDigitChar a ∧ isDigitChar b then finish (10 * digitVal a + digitVal b) ds
        else none
      | a :: '-' :: ds => if isDigitChar a then finish (digitVal a) ds else none
      | _ => none
    else none
  | _ => none

/-- `parse_date` of `scripts/build_time_trends.py` (lines 16-45): try the
ISO prefix, then the `DD.MM. - DD.MM.YYYY` range pattern, then plain
`DD.MM.YYYY`; an invalid calendar date in one branch falls through to the
next (`try/except: pass`). Returns the (year, month, day) of the
`datetime` produced. -/
def parse_date (cs : List Char) : Option (ℕ × ℕ × ℕ) :=
  if cs = [] then none
  else
    match parseIso cs with
    | some ymd => if validDate ymd.1 ymd.2.1 ymd.2.2 then some ymd else parseDateTail cs
    | none => parseDateTail cs
  where
    /-- Branches 2 and 3 of `parse_date`. -/
    parseDateTail (cs : List Char) : Option (ℕ × ℕ × ℕ) :=
      let branch3 : Option (ℕ × ℕ × ℕ) :=
        match searchDmy cs with
        | some (d, m, y) => if validDate y m d then some (y, m, d) else none
        | none => none
      match searchRange cs with
      | some (d, m, y) => if validDate y m d then some (y, m, d) else branch3
      | none => branch3

/-- A parsed date as a day number, the form carried on normalized
results (`result_date.isoformat()` stores the date; the deduplication
re-reads it with `fromisoformat`, so only the day number matters). -/
def parse_date_day (cs : List Char) : Option ℤ :=
  (parse_date cs).map fun ymd => dayNum ymd.1 ymd.2.1 ymd.2.2

/-- Does `needle` start `hay`? (helper for the Python substring test). -/
def headMatches : List Char → List Char → Bool
  | [], _ => true
  | _ :: _, [] => false
  | a :: as, b :: bs => a = b && headMatches as bs

/-- Python `needle in hay` on strings: contiguous substring (the empty
string is a substring of everything). -/
def isSubstringOf (needle : List Char) : List Char → Bool
  | [] => needle.isEmpty
  | c :: rest => headMatches needle (c :: rest) || isSubstringOf needle rest

/-- `re.search(r'(\d+)', s)`: value of the first maximal digit run. -/
def searchDigits : List Char → Option ℕ
  | [] => none
  | c :: rest =>
    if isDigitChar c then some (digitsVal ((c :: rest).takeWhile isDigitChar))
    else searchDigits rest

/-- The three data sources merged by `load_uss_results`
(`scripts/build_time_trends.py` lines 173-318). -/
inductive Source where
  | uss_pdf
  | uss_hist
  | stl
deriving DecidableEq, Repr

/-- `source_priority` of `scripts/build_time_trends.py` line 399:
`{'uss_pdf': 0, 'uss_hist': 1, 'stl': 2}`. -/
def source_priority (s : Source) : ℕ :=
  match s with
  | .uss_pdf => 0
  | .uss_hist => 1
  | .stl => 2

/-- A normalized result dict as appended by the loaders (distance, time in
seconds, original time string, competition, date as a day number or `None`,
rank/place, source tag). -/
structure ResultRec where
  distance : ℕ
  time : ℚ
  time_str : List Char
  competition : List Char
  date : Option ℤ
  place : Option ℤ
  source : Source
deriving DecidableEq, Repr

/-- A raw entry of `uss_all_results.json` as used by loader branch 1
(strings default to `''`/`'Unknown'` via `.get`; a `None` time behaves
exactly like the empty string in `parse_time` and truthiness tests). -/
structure RawPdfResult where
  skater : List Char
  time : List Char
  distance : List Char
  competition : Option (List Char)
  date : List Char
  rank : Option ℤ

/-- A raw entry of `us_historical_results.json` used by loader branch 2. -/
structure RawHistResult where
  skater : List Char
  time : List Char
  distance : List Char
  competition : Option (List Char)
  date : List Char
  place : Option ℤ

/-- One result row of an STL scraped event. -/
structure StlRow where
  name : List Char
  time : List Char
  place : Option ℤ

/-- One event of an STL scraped competition (`distance` is a raw number in
the JSON). -/
structure StlEvent where
  distance : Option ℕ
  results : List StlRow

/-- One STL scraped competition. -/
structure StlComp where
  name : Option (List Char)
  events : List StlEvent

/-- One `personal_bests_detail` entry of a skater profile. -/
structure PbDetail where
  competition : Option (List Char)
  time : List Char
  distance : Option ℕ
  date : List Char

/-- Loader branch 1 of `load_uss_results` (lines 191-219): USS PDF results.
Each kept row is paired with the normalized skater name it is filed under
in `results_by_skater`. The row is kept only when name, parsed time and
parsed distance are all truthy and the time is plausible for the raw
distance (note: branch 1 does not bucket the distance). -/
def loadPdf (rs : List RawPdfResult) : List (List Char × ResultRec) :=
  rs.filterMap fun r =>
    match parse_time r.time, searchDigits r.distance with
    | some t, some d =>
      if r.skater ≠ [] ∧ t ≠ 0 ∧ d ≠ 0 ∧ is_valid_time_for_distance t d then
        some (normalize_name r.skater,
          { distance := d, time := t, time_str := r.time,
            competition := r.competition.getD (String.toList "Unknown"),
            date := parse_date_day r.date, place := r.rank, source := .uss_pdf })
      else none
    | _, _ => none

/-- Loader branch 2 of `load_uss_results` (lines 222-262): historical
results; the raw distance goes through `normalize_distance`. -/
def loadHist (rs : List RawHistResult) : List (List Char × ResultRec) :=
  rs.filterMap fun r =>
    if r.time = [] then none
    else
      match parse_time r.time,
        (match searchDigits r.distance with
         | some rd => normalize_distance rd
         | none => none) with
      | some t, some d =>
        if r.skater ≠ [] ∧ t ≠ 0 ∧ d ≠ 0 ∧ is_valid_time_for_distance t d then
          some (normalize_name r.skater,
            { distance := d, time := t, time_str := r.time,
              competition := r.competition.getD (String.toList "Unknown"),
              date := parse_date_day r.date, place := r.place, source := .uss_hist })
        else none
      | _, _ => none

/-- Loader branch 3 of `load_uss_results` (lines 264-316): STL scraped
competitions; the competition date is parsed out of the competition name
and the event distance is bucketed before the per-row loop. -/
def loadStl (comps : List StlComp) : List (List Char × ResultRec) :=
  comps.flatMap fun comp =>
    let comp_name := comp.name.getD (String.toList "Unknown")
    let comp_date := parse_date_day comp_name
    comp.events.flatMap fun ev =>
      match (match ev.distance with
             | some rd => normalize_distance rd
             | none => none) with
      | none => []
      | some d =>
        ev.results.filterMap fun row =>
          match parse_time row.time with
          | some t =>
            if row.name ≠ [] ∧ t ≠ 0 ∧ is_valid_time_for_distance t d then
              some (normalize_name row.name,
                { distance := d, time := t, time_str := row.time,
                  competition := comp_name, date := comp_date,
                  place := row.place, source := .stl })
            else none
          | none => none

/-- The STL personal-best fallback of `build_time_trends` (lines 358-388):
given the set of competition names already covered by USS data, keep a
personal best only when its competition matches none of them as a
substring in either direction, its time parses, its distance buckets, and
the time is plausible. -/
def pbFallback (uss_comps : List (List Char)) (pbs : List PbDetail) : List ResultRec :=
  pbs.filterMap fun pb =>
    let pb_comp := pb.competition.getD []
    if uss_comps.any (fun c => isSubstringOf pb_comp c || isSubstringOf c pb_comp) then none
    else
      match parse_time pb.time,
        (match pb.distance with
         | some rd => normalize_distance rd
         | none => none) with
      | some t, some d =>
        if t ≠ 0 ∧ is_valid_time_for_distance t d then
          some { distance := d, time := t, time_str := pb.time,
                 competition := pb_comp, date := parse_date_day pb.date,
                 place := none, source := .stl }
        else none
      | _, _ => none

/-- Sort key date component: `x['date'] or '9999'` compares ISO date
strings, which orders them by day number; a missing date gets the sentinel
`'9999'`, larger than every storable date (years run to 9999). -/
def dateKey (r : ResultRec) : ℤ :=
  match r.date with
  | some d => d
  | none => dayNum 10000 1 1

/-- The sort key `(x['date'] or '9999', x['time'])` of line 403, as a
lexicographic order relation. -/
def sortKeyLe (a b : ResultRec) : Prop :=
  dateKey a < dateKey b ∨ (dateKey a = dateKey b ∧ a.time ≤ b.time)

instance (a b : ResultRec) : Decidable (sortKeyLe a b) := by
  unfold sortKeyLe; infer_instance

/-- Stable insertion: the new element goes after every element whose key is
less than or equal to its own, as in Python's stable `list.sort`. -/
def insertSorted (r : ResultRec) : List ResultRec → List ResultRec
  | [] => [r]
  | e :: rest => if sortKeyLe e r then e :: insertSorted r rest else r :: e :: rest

/-- Python's stable `list.sort(key=lambda x: (x['date'] or '9999',
x['time']))` on line 403, modelled as stable insertion sort. -/
def sortRecs (l : List ResultRec) : List ResultRec :=
  l.foldl (fun acc r => insertSorted r acc) []

/-- `deduped.remove(existing)`: drop the first element equal to `x`. -/
def removeFirst (x : ResultRec) : List ResultRec → List ResultRec
  | [] => []
  | e :: rest => if e = x then rest else e :: removeFirst x rest

/-- Scan for the first already-kept dated record within 2 days of day `d`,
returning its index and value (the dated branch of the loop at lines
424-441; `fromisoformat` cannot fail on stored dates, so the `try/except`
is inert). -/
def findDatedWithin (d : ℤ) : List ResultRec → Option (ℕ × ResultRec)
  | [] => none
  | e :: rest =>
    match e.date with
    | some ed =>
      if (d - ed).natAbs ≤ 2 then some (0, e)
      else (findDatedWithin d rest).map fun p => (p.1 + 1, p.2)
    | none => (findDatedWithin d rest).map fun p => (p.1 + 1, p.2)

/-- One iteration of the deduplication loop of `build_time_trends`
(lines 408-444): an undated record is merged with the first kept record
sharing the first 30 characters of the competition name (faster time wins,
`remove` + `append`); a dated record is merged with the first kept dated
record within 2 days (faster time wins, replaced in place); otherwise the
record is appended. -/
def dedupStep (deduped : List ResultRec) (r : ResultRec) : List ResultRec :=
  match r.date with
  | none =>
    match deduped.find? (fun e => e.competition.take 30 == r.competition.take 30) with
    | some e => if r.time < e.time then removeFirst e deduped ++ [r] else deduped
    | none => deduped ++ [r]
  | some d =>
    match findDatedWithin d deduped with
    | some (i, e) => if r.time < e.time then deduped.set i r else deduped
    | none => deduped ++ [r]

/-- The per-distance sort-and-deduplicate pass of `build_time_trends`
(lines 401-446): sort by `(date or '9999', time)`, then fold the merge
step over the sorted list. -/
def dedupeTimeline (l : List ResultRec) : List ResultRec :=
  (sortRecs l).foldl dedupStep []

/-- The reversed-name fallback key of `build_time_trends` (lines 352-356):
for a normalized name of at least two words, `LAST FIRST...` becomes
`FIRST... LAST` (the code only forms it in that case; other names are
returned unchanged here). -/
def reversedName (norm : List Char) : List Char :=
  let parts := splitWs norm
  if parts.length ≥ 2 then
    (parts.getLast?.getD []) ++ ' ' :: joinSpace parts.dropLast
  else norm

end BTT

namespace PDFS

/-- A result dict built by the page parsers of `data/parse_uss_pdfs.py`
(rank, skater, time string, distance label, category label). -/
structure PdfRec where
  rank : ℤ
  skater : List Char
  time : List Char
  distance : List Char
  category : List Char
deriving DecidableEq, Repr

/-- The grouping key of `dedupe_results` (line 168):
`(r['skater'].lower(), r['distance'], r['category'])`. -/
def keyOf (r : PdfRec) : List Char × List Char × List Char :=
  (lowerStr r.skater, r.distance, r.category)

/-- Python string `<` (lexicographic by code point). -/
def strLtb : List Char → List Char → Bool
  | [], [] => false
  | [], _ :: _ => true
  | _ :: _, [] => false
  | a :: as, b :: bs => a.toNat < b.toNat || (a = b && strLtb as bs)

/-- Stable insertion for `rlist.sort(key=lambda x: x['time'])` (line 173):
the Python sort compares the raw time *strings* lexicographically. -/
def insertByTime (r : PdfRec) : List PdfRec → List PdfRec
  | [] => [r]
  | e :: rest => if strLtb r.time e.time then r :: e :: rest else e :: insertByTime r rest

/-- `rlist.sort(key=lambda x: x['time'])`: stable sort by time string. -/
def sortByTimeStr (l : List PdfRec) : List PdfRec :=
  l.foldl (fun acc r => insertByTime r acc) []

/-- Keys of `best` in first-appearance order (`defaultdict` preserves
insertion order of keys). -/
def groupKeys (l : List PdfRec) : List (List Char × List Char × List Char) :=
  l.foldl (fun ks r => if keyOf r ∈ ks then ks else ks ++ [keyOf r]) []

/-- `dedupe_results` of `data/parse_uss_pdfs.py` (lines 164-176): group by
(lower-cased skater, distance, category), sort each group by its raw time
string, keep the first element of each group. -/
def dedupe_results (l : List PdfRec) : List PdfRec :=
  (groupKeys l).filterMap fun k =>
    match sortByTimeStr (l.filter fun r => decide (keyOf r = k)) with
    | [] => none
    | first :: _ => some first

end PDFS

namespace CVU

/-- Python `str.isupper()` on ASCII data: at least one letter and no
lower-case letter. -/
def pyIsUpper (cs : List Char) : Bool :=
  cs.any isAsciiLetter && cs.all fun c => !(isLowerLetter c)

/-- Helper for `str.title()`: capitalize a letter after a non-letter,
lower-case a letter after a letter. -/
def titleAux : Bool → List Char → List Char
  | _, [] => []
  | prevLetter, c :: rest =>
    if isAsciiLetter c then
      (if prevLetter then lowerChar c else upperChar c) :: titleAux true rest
    else c :: titleAux false rest

/-- Python `str.title()` on ASCII data. -/
def pyTitle (cs : List Char) : List Char := titleAux false cs

/-- `re.sub(r'\s+', ' ', s)`: every whitespace run becomes one space. -/
def collapseWsRuns (fuel : ℕ) (cs : List Char) : List Char :=
  match fuel, cs with
  | 0, rest => rest
  | _ + 1, [] => []
  | fuel + 1, c :: rest =>
    if isWsChar c then ' ' :: collapseWsRuns fuel (rest.dropWhile isWsChar)
    else c :: collapseWsRuns fuel rest

/-- `normalize_name` of `scripts/cross_validate_uss.py` (lines 12-25):
empty input gives `""`; a `LAST First ...` shape (first word upper-case,
second not) is rotated to `First ... Last`; then lower-case, strip and
collapse whitespace. -/
def normalize_name (cs : List Char) : List Char :=
  if cs = [] then []
  else
    let parts := splitWs (stripWs cs)
    let name1 :=
      match parts with
      | p0 :: p1 :: _ =>
        if pyIsUpper p0 ∧ ¬(pyIsUpper p1 = true) then
          joinSpace (parts.drop 1) ++ ' ' :: pyTitle p0
        else cs
      | _ => cs
    let n := stripWs (lowerStr name1)
    collapseWsRuns n.length n

/-- `\d{2}\.`: exactly two digits and a dot; returns the remainder. -/
def d2dot : List Char → Option (List Char)
  | a :: b :: '.' :: r => if isDigitChar a ∧ isDigitChar b then some r else none
  | _ => none

/-- Head match of the embedded-date pattern
`\d{2}\.\d{2}\.\s*-\s*\d{2}\.\d{2}\.\d{4},?\s*` of `normalize_comp_name`
(line 29); returns the remainder after the match. -/
def matchDateRange (cs : List Char) : Option (List Char) :=
  match d2dot cs with
  | none => none
  | some r1 =>
    match d2dot r1 with
    | none => none
    | some r2 =>
      match r2.dropWhile isWsChar with
      | '-' :: r3 =>
        match d2dot (r3.dropWhile isWsChar) with
        | none => none
        | some r4 =>
          match d2dot r4 with
          | none => none
          | some r5 =>
            match r5 with
            | a :: b :: c :: d :: r6 =>
              if isDigitChar a ∧ isDigitChar b ∧ isDigitChar c ∧ isDigitChar d then
                let r7 := match r6 with
                  | ',' :: r => r
                  | r => r
                some (r7.dropWhile isWsChar)
              else none
            | _ => none
      | _ => none

/-- `re.sub` of the embedded-date pattern: remove every non-overlapping
leftmost match (fuel is the string length, enough since every match
consumes characters). -/
def subDateRange (fuel : ℕ) (cs : List Char) : List Char :=
  match fuel, cs with
  | 0, rest => rest
  | _ + 1, [] => []
  | fuel + 1, c :: rest =>
    match matchDateRange (c :: rest) with
    | some r => subDateRange fuel r
    | none => c :: subDateRange fuel rest

/-- `re.sub(r'\d{4}', '', s)` (line 30): drop every leftmost run of four
digits. -/
def subFourDigits (fuel : ℕ) (cs : List Char) : List Char :=
  match fuel, cs with
  | 0, rest => rest
  | _ + 1, [] => []
  | fuel + 1, c :: rest =>
    match cs with
    | a :: b :: c2 :: d :: r =>
      if isDigitChar a ∧ isDigitChar b ∧ isDigitChar c2 ∧ isDigitChar d then
        subFourDigits fuel r
      else c :: subFourDigits fuel rest
    | _ => c :: subFourDigits fuel rest

/-- The two-letter ordinal suffixes `st|nd|rd|th` (case-insensitive). -/
def ordSuffix (a b : Char) : Bool :=
  (lowerChar a = 's' && lowerChar b = 't') || (lowerChar a = 'n' && lowerChar b = 'd') ||
  (lowerChar a = 'r' && lowerChar b = 'd') || (lowerChar a = 't' && lowerChar b = 'h')

/-- After the first digit of a run: consume the remaining digits, then an
ordinal suffix; `none` when the run is not followed by a suffix. -/
def stripOrdinal : List Char → Option (List Char)
  | a :: b :: rest =>
    if isDigitChar a then stripOrdinal (b :: rest)
    else if ordSuffix a b then some rest
    else none
  | _ => none

/-- `re.sub(r'\d+(st|nd|rd|th)', '', s, flags=IGNORECASE)` (line 31): a
maximal digit run followed by an ordinal suffix is removed (a shorter run
can never match, as the suffix would have to start with a digit). -/
def subOrdinals (fuel : ℕ) (cs : List Char) : List Char :=
  match fuel, cs with
  | 0, rest => rest
  | _ + 1, [] => []
  | fuel + 1, c :: rest =>
    if isDigitChar c then
      match stripOrdinal rest with
      | some r2 => subOrdinals fuel r2
      | none => c :: subOrdinals fuel rest
    else c :: subOrdinals fuel rest

/-- `re.sub(r'#\d+', '', s)` (line 32). -/
def subHashNum (fuel : ℕ) (cs : List Char) : List Char :=
  match fuel, cs with
  | 0, rest => rest
  | _ + 1, [] => []
  | fuel + 1, c :: rest =>
    if c = '#' ∧ rest.takeWhile isDigitChar ≠ [] then
      subHashNum fuel (rest.dropWhile isDigitChar)
    else c :: subHashNum fuel rest

/-- `re.sub(r'[,\-]', ' ', s)` (line 33). -/
def mapPunct (cs : List Char) : List Char :=
  cs.map fun c => if c = ',' ∨ c = '-' then ' ' else c

/-- Strip trailing whitespace only. -/
def stripTrailingWs (cs : List Char) : List Char :=
  (cs.reverse.dropWhile isWsChar).reverse

/-- `re.sub(rf'\s{loc}\s*$', '', name, flags=IGNORECASE)` (line 36): one
whitespace character, the location literal and optional trailing
whitespace, anchored at the end. -/
def removeLocSuffix (name loc : List Char) : List Char :=
  let body := stripTrailingWs name
  let k := loc.length
  let tailSeg := (body.reverse.take k).reverse
  let isWsBefore : Bool :=
    match body.reverse.drop k with
    | w :: _ => isWsChar w
    | [] => false
  if lowerStr tailSeg = loc ∧ isWsBefore = true then (body.reverse.drop (k + 1)).reverse
  else name

/-- The location suffixes stripped by `normalize_comp_name` (line 35), in
source order. -/
def locSuffixes : List (List Char) :=
  [String.toList "usa", String.toList "ut", String.toList "il",
   String.toList "ny", String.toList "wi", String.toList "ma",
   String.toList "nj", String.toList "ct", String.toList "nh",
   String.toList "salt lake city", String.toList "milwaukee"]

/-- `normalize_comp_name` of `scripts/cross_validate_uss.py` (lines 27-37):
remove embedded date ranges, four-digit runs, ordinals and `#`-numbers, map
commas and dashes to spaces, collapse whitespace, strip and lower-case,
then strip each trailing location suffix in turn, and strip again. -/
def normalize_comp_name (cs : List Char) : List Char :=
  let n1 := subDateRange cs.length cs
  let n2 := subFourDigits n1.length n1
  let n3 := subOrdinals n2.length n2
  let n4 := subHashNum n3.length n3
  let n5 := mapPunct n4
  let n6 := lowerStr (stripWs (collapseWsRuns n5.length n5))
  stripWs (locSuffixes.foldl removeLocSuffix n6)

/-- `parse_time` of `scripts/cross_validate_uss.py` (lines 39-56): two
colon-separated fields are minutes and seconds, three are hours, minutes
and seconds, any other colon count yields `None`; no colon reads the whole
string as seconds; `float` failures yield `None`. -/
def parse_time (cs : List Char) : Option ℚ :=
  if cs = [] then none
  else
    let t := stripWs cs
    if ':' ∈ t then
      match splitOnChar ':' t with
      | [p0, p1] =>
        match parseFloat p0, parseFloat p1 with
        | some mins, some secs => some (mins * 60 + secs)
        | _, _ => none
      | [p0, p1, p2] =>
        match parseFloat p0, parseFloat p1, parseFloat p2 with
        | some hours, some mins, some secs => some (hours * 3600 + mins * 60 + secs)
        | _, _, _ => none
      | _ => none
    else parseFloat t

/-- A record of `us_historical_results.json` as used to build
`uss_lookup` and the match entries (lines 84-90, 119-127). -/
structure UssRec where
  skater : List Char
  competition : List Char
  distance : List Char
  place : Option ℤ
  time : List Char
deriving DecidableEq, Repr

/-- The lookup key `(normalize_name(skater), normalize_comp_name(comp),
distance.lower())` of lines 85-89. -/
def ussKey (r : UssRec) : List Char × List Char × List Char :=
  (normalize_name r.skater, normalize_comp_name r.competition, lowerStr r.distance)

/-- `uss_lookup[key]`: all records filed under `key`, in input order
(`defaultdict(list)` append order). -/
def lookupFor (uss : List UssRec) (k : List Char × List Char × List Char) : List UssRec :=
  uss.filter fun r => decide (ussKey r = k)

/-- One event of an STL skater-facts entry (lines 106-107, 124). -/
structure StlEventFact where
  name : List Char
  best_rank : Option ℤ
deriving DecidableEq, Repr

/-- One STL skater-facts entry (lines 103-104). -/
structure StlSkaterFact where
  name : List Char
  events : List StlEventFact
deriving DecidableEq, Repr

/-- A `matches` entry as appended on lines 119-127. -/
structure MatchEntry where
  skater : List Char
  stl_event : List Char
  uss_comp : List Char
  distance : List Char
  stl_best_rank : Option ℤ
  uss_place : Option ℤ
  uss_time : List Char
deriving DecidableEq, Repr

/-- The four distances probed by the match loop (line 113). -/
def distProbes : List (List Char) :=
  [String.toList "500m", String.toList "1000m", String.toList "1500m",
   String.toList "3000m"]

/-- The match loop of `main` (lines 103-127): for every skater fact, every
event and every probed distance whose key is present in the lookup, emit
one match entry built from the first record under the key. -/
def matchesFor (uss : List UssRec) (facts : List StlSkaterFact) : List MatchEntry :=
  facts.flatMap fun skater =>
    let stl_name := normalize_name skater.name
    skater.events.flatMap fun event =>
      let norm_comp := normalize_comp_name event.name
      distProbes.filterMap fun dist =>
        match lookupFor uss (stl_name, norm_comp, dist) with
        | [] => none
        | u0 :: _ =>
          some { skater := skater.name, stl_event := event.name.take 60,
                 uss_comp := u0.competition, distance := dist,
                 stl_best_rank := event.best_rank, uss_place := u0.place,
                 uss_time := u0.time }

/-- Python truthiness of a rank value (`None` and `0` are falsy). -/
def truthyRank : Option ℤ → Bool
  | none => false
  | some n => n ≠ 0

/-- The `discrepancies` list of `main` (line 156): matches where both
ranks are truthy and differ. -/
def discrepancies (uss : List UssRec) (facts : List StlSkaterFact) : List MatchEntry :=
  (matchesFor uss facts).filter fun m =>
    truthyRank m.stl_best_rank && truthyRank m.uss_place &&
      decide (m.stl_best_rank ≠ m.uss_place)

end CVU

/-- The concrete two-record dated cluster used to witness the amended C2
statement. -/
def c2pair : List BTT.ResultRec :=
  [{ distance := 500, time := 40, time_str := String.toList "40.0",
     competition := String.toList "A", date := some 0, place := none,
     source := .uss_pdf },
   { distance := 500, time := 39, time_str := String.toList "39.0",
     competition := String.toList "B", date := some 1, place := none,
     source := .stl }]

/-! ## Helper lemmas -/

/-- Every non-discarded output of `normalize_distance` is a standard
distance. -/
theorem normalize_distance_mem {d v : ℕ} (h : BTT.normalize_distance d = some v) :
    v ∈ [222, 333, 500, 777, 1000, 1500, 3000] := by
  unfold BTT.normalize_distance at h
  by_cases h0 : d = 0
  · rw [if_pos h0] at h
    cases h
  · rw [if_neg h0] at h
    rcases hf : BTT.mappings.find? (fun m => decide (m.1.1 ≤ d ∧ d ≤ m.1.2)) with _ | m
    · rw [hf] at h
      by_cases hstd : d ∈ [222, 333, 500, 777, 1000, 1500, 3000]
      · rw [if_pos hstd] at h
        injection h with hv
        subst hv
        exact hstd
      · rw [if_neg hstd] at h
        by_cases hout : d < 200 ∨ d > 4000
        · rw [if_pos hout] at h
          cases h
        · rw [if_neg hout] at h
          cases h
    · rw [hf] at h
      injection h with hv
      subst hv
      have hmem := List.mem_of_find?_eq_some hf
      fin_cases hmem <;> decide

/-- A digit character is not whitespace. -/
theorem wsChar_of_digit {c : Char} (h : isDigitChar c = true) : isWsChar c = false := by
  have h1 : 48 ≤ c.toNat ∧ c.toNat ≤ 57 := by simpa [isDigitChar] using h
  simp only [isWsChar, Bool.or_eq_false_iff, decide_eq_false_iff_not]
  refine ⟨⟨⟨⟨⟨⟨?_, ?_⟩, ?_⟩, ?_⟩, ?_⟩, ?_⟩, ?_⟩ <;> (rintro rfl; revert h1; decide)

/-- A digit character is not `'+'`. -/
theorem digit_ne_plus {c : Char} (h : isDigitChar c = true) : c ≠ '+' := by
  have h1 : 48 ≤ c.toNat ∧ c.toNat ≤ 57 := by simpa [isDigitChar] using h
  rintro rfl
  revert h1
  decide

/-- A digit character is not `'-'`. -/
theorem digit_ne_dash {c : Char} (h : isDigitChar c = true) : c ≠ '-' := by
  have h1 : 48 ≤ c.toNat ∧ c.toNat ≤ 57 := by simpa [isDigitChar] using h
  rintro rfl
  revert h1
  decide

/-- A digit character is not `':'`. -/
theorem digit_ne_colon {c : Char} (h : isDigitChar c = true) : c ≠ ':' := by
  have h1 : 48 ≤ c.toNat ∧ c.toNat ≤ 57 := by simpa [isDigitChar] using h
  rintro rfl
  revert h1
  decide

/-- `dropWhile` is the identity on a list whose elements all fail the
predicate. -/
theorem dropWhile_eq_self_of {p : Char → Bool} {l : List Char}
    (h : ∀ c ∈ l, p c = false) : l.dropWhile p = l := by
  cases l with
  | nil => rfl
  | cons a t =>
    rw [List.dropWhile_cons, if_neg]
    simp [h a (by simp)]

/-- `stripWs` is the identity on a string with no whitespace. -/
theorem stripWs_eq_self {cs : List Char} (h : ∀ c ∈ cs, isWsChar c = false) :
    stripWs cs = cs := by
  unfold stripWs
  rw [dropWhile_eq_self_of h, dropWhile_eq_self_of (by simpa using h), List.reverse_reverse]

/-- `takeWhile` is the identity on a list whose elements all satisfy the
predicate. -/
theorem takeWhile_eq_self_of {p : Char → Bool} {l : List Char}
    (h : ∀ c ∈ l, p c = true) : l.takeWhile p = l := by
  induction l with
  | nil => rfl
  | cons a t ih =>
    rw [List.takeWhile_cons, if_pos (h a (by simp))]
    rw [ih (fun c hc => h c (by simp [hc]))]

/-- `takeWhile` keeps an all-true prefix. -/
theorem takeWhile_app_of_all {p : Char → Bool} {l1 l2 : List Char}
    (h1 : ∀ c ∈ l1, p c = true) (h2 : ∀ c, l2.head? = some c → p c = false) :
    (l1 ++ l2).takeWhile p = l1 := by
  induction l1 with
  | nil =>
    cases l2 with
    | nil => rfl
    | cons c t => simpa [List.takeWhile_cons] using h2 c rfl
  | cons a t ih =>
    rw [List.cons_append, List.takeWhile_cons, if_pos (h1 a (by simp))]
    rw [ih (fun c hc => h1 c (by simp [hc]))]

/-- `dropWhile` drops an all-true prefix. -/
theorem dropWhile_app_of_all {p : Char → Bool} {l1 l2 : List Char}
    (h1 : ∀ c ∈ l1, p c = true) (h2 : ∀ c, l2.head? = some c → p c = false) :
    (l1 ++ l2).dropWhile p = l2 := by
  induction l1 with
  | nil =>
    cases l2 with
    | nil => rfl
    | cons c t => simp [List.dropWhile_cons, h2 c rfl]
  | cons a t ih =>
    rw [List.cons_append, List.dropWhile_cons, if_pos (h1 a (by simp))]
    exact ih (fun c hc => h1 c (by simp [hc]))

/-- `parseUnsignedFloat` on a nonempty all-digit string is its value. -/
theorem parseUnsignedFloat_digits {ds : List Char} (hne : ds ≠ [])
    (hd : ∀ c ∈ ds, isDigitChar c = true) :
    parseUnsignedFloat ds = some ((digitsVal ds : ℚ)) := by
  unfold parseUnsignedFloat
  have ht : ds.takeWhile isDigitChar = ds := takeWhile_eq_self_of hd
  have hdr : ds.dropWhile isDigitChar = [] := List.dropWhile_eq_nil_iff.mpr hd
  rw [hdr]
  simp [ht, hne]

/-- `parseUnsignedFloat` on `digits.digits` is the decimal value. -/
theorem parseUnsignedFloat_dec {ds fs : List Char} (hne : ds ≠ [])
    (hd : ∀ c ∈ ds, isDigitChar c = true) (hf : ∀ c ∈ fs, isDigitChar c = true) :
    parseUnsignedFloat (ds ++ '.' :: fs) = some ((digitsVal ds : ℚ) + fracVal fs) := by
  unfold parseUnsignedFloat
  have ht : (ds ++ '.' :: fs).takeWhile isDigitChar = ds :=
    takeWhile_app_of_all hd (by intro c hc; injection hc with hc; subst hc; decide)
  have hdr : (ds ++ '.' :: fs).dropWhile isDigitChar = '.' :: fs :=
    dropWhile_app_of_all hd (by intro c hc; injection hc with hc; subst hc; decide)
  rw [hdr, ht]
  simp [List.all_eq_true.mpr hf, hne]

/-- `parseFloat` on a nonempty all-digit string is its value. -/
theorem parseFloat_digits {ds : List Char} (hne : ds ≠ [])
    (hd : ∀ c ∈ ds, isDigitChar c = true) :
    parseFloat ds = some ((digitsVal ds : ℚ)) := by
  unfold parseFloat
  have hs : stripWs ds = ds := stripWs_eq_self (fun c hc => wsChar_of_digit (hd c hc))
  rw [hs]
  cases ds with
  | nil => exact absurd rfl hne
  | cons c r =>
    have hc := hd c (by simp)
    dsimp only
    rw [if_neg (digit_ne_plus hc), if_neg (digit_ne_dash hc)]
    exact parseUnsignedFloat_digits hne hd

/-- `parseFloat` on `digits.digits` is the decimal value. -/
theorem parseFloat_dec {ds fs : List Char} (hne : ds ≠ [])
    (hd : ∀ c ∈ ds, isDigitChar c = true) (hf : ∀ c ∈ fs, isDigitChar c = true) :
    parseFloat (ds ++ '.' :: fs) = some ((digitsVal ds : ℚ) + fracVal fs) := by
  unfold parseFloat
  have hs : stripWs (ds ++ '.' :: fs) = ds ++ '.' :: fs := by
    refine stripWs_eq_self ?_
    intro c hc
    rcases List.mem_append.mp hc with hc | hc
    · exact wsChar_of_digit (hd c hc)
    · rcases List.mem_cons.mp hc with rfl | hc
      · decide
      · exact wsChar_of_digit (hf c hc)
  rw [hs]
  cases ds with
  | nil => exact absurd rfl hne
  | cons c r =>
    have hc := hd c (by simp)
    rw [List.cons_append]
    dsimp only
    rw [if_neg (digit_ne_plus hc), if_neg (digit_ne_dash hc)]
    exact parseUnsignedFloat_dec hne hd hf

/-- `splitOnChar` never returns the empty list. -/
theorem splitOnChar_ne_nil (sep : Char) (l : List Char) : splitOnChar sep l ≠ [] := by
  induction l with
  | nil => simp [splitOnChar]
  | cons c rest ih =>
    simp only [splitOnChar]
    rcases hsp : splitOnChar sep rest with _ | ⟨h, t⟩
    · exact absurd hsp ih
    · by_cases hc : c = sep <;> simp [hc]

/-- The number of fields of `splitOnChar` is the separator count plus
one. -/
theorem length_splitOnChar (sep : Char) (l : List Char) :
    (splitOnChar sep l).length = l.count sep + 1 := by
  induction l with
  | nil => rfl
  | cons c rest ih =>
    simp only [splitOnChar]
    rcases hsp : splitOnChar sep rest with _ | ⟨h, t⟩
    · exact absurd hsp (splitOnChar_ne_nil sep rest)
    · rw [hsp] at ih
      by_cases hc : c = sep
      · simp only [if_pos hc, List.count_cons, hc]
        simp only [List.length_cons] at ih ⊢
        simp [ih]
      · simp only [if_neg hc, List.count_cons]
        simp only [List.length_cons] at ih ⊢
        have : (rest.count sep + if (c == sep) = true then 1 else 0) = rest.count sep := by
          simp [hc]
        rw [this]
        exact ih

/-- `splitOnChar` on a separator-free string is one field. -/
theorem splitOnChar_of_not_mem {sep : Char} {l : List Char} (h : sep ∉ l) :
    splitOnChar sep l = [l] := by
  induction l with
  | nil => rfl
  | cons c rest ih =>
    simp only [splitOnChar]
    rw [ih (fun hm => h (by simp [hm]))]
    have hcs : ¬c = sep := by rintro rfl; exact h (by simp)
    simp [hcs]

/-- `splitOnChar` after a separator-free prefix. -/
theorem splitOnChar_append {sep : Char} {pre rest : List Char} (h : sep ∉ pre) :
    splitOnChar sep (pre ++ sep :: rest) = pre :: splitOnChar sep rest := by
  induction pre with
  | nil =>
    simp only [List.nil_append, splitOnChar]
    rcases hsp : splitOnChar sep rest with _ | ⟨hh, tt⟩
    · exact absurd hsp (splitOnChar_ne_nil sep rest)
    · simp
  | cons c pre' ih =>
    simp only [List.cons_append, splitOnChar, List.append_eq]
    rw [ih (fun hm => h (by simp [hm]))]
    have hcs : ¬c = sep := by rintro rfl; exact h (by simp)
    simp [hcs]

/-! ## Claim theorems -/

/-- C7: `normalize_distance` maps 451, 500, 549 and 599 to 500, discards
4001, and every non-discarded output lies in the fixed enumerated set
{222, 333, 500, 777, 1000, 1500, 3000}. -/
theorem claim_C7_distance_buckets :
    BTT.normalize_distance 451 = some 500 ∧ BTT.normalize_distance 500 = some 500 ∧
    BTT.normalize_distance 549 = some 500 ∧ BTT.normalize_distance 599 = some 500 ∧
    BTT.normalize_distance 4001 = none ∧
    ∀ d v, BTT.normalize_distance d = some v →
      v ∈ [222, 333, 500, 777, 1000, 1500, 3000] := by
  refine ⟨by decide, by decide, by decide, by decide, by decide, ?_⟩
  intro d v h
  exact normalize_distance_mem h

/-- Witness for C7 at the concrete input 230. -/
theorem claim_C7_witness :
    BTT.normalize_distance 230 = some 222 ∧
      222 ∈ [222, 333, 500, 777, 1000, 1500, 3000] :=
  ⟨by decide, claim_C7_distance_buckets.2.2.2.2.2 230 222 (by decide)⟩

/-- C9 counterexample: `normalize_name` is not idempotent — one
application strips only the last stacked club-code suffix, so a second
application shrinks the name further. -/
theorem claim_C9_counterexample :
    BTT.normalize_name (BTT.normalize_name
        (String.toList "CHEN Daniel USA-PSSP CAN-ABC")) ≠
      BTT.normalize_name (String.toList "CHEN Daniel USA-PSSP CAN-ABC") := by
  decide

/-- C9 (amended): `normalize_distance` is idempotent on every
non-discarded output, and `normalize_name` is a fixed point on a
normalized single-suffix name, but not idempotent in general (see the
counterexample). -/
theorem claim_C9_idempotence_amended :
    (∀ d v, BTT.normalize_distance d = some v → BTT.normalize_distance v = some v) ∧
    BTT.normalize_name (BTT.normalize_name (String.toList "CHEN Daniel USA-PSSP")) =
      BTT.normalize_name (String.toList "CHEN Daniel USA-PSSP") := by
  refine ⟨?_, by decide⟩
  intro d v h
  have hv := normalize_distance_mem h
  simp only [List.mem_cons, List.mem_singleton] at hv
  rcases hv with rfl | rfl | rfl | rfl | rfl | rfl | rfl | hv
  · decide
  · decide
  · decide
  · decide
  · decide
  · decide
  · decide
  · simp at hv

/-- Witness for C9 (amended) at the concrete input 451. -/
theorem claim_C9_witness :
    BTT.normalize_distance 451 = some 500 ∧ BTT.normalize_distance 500 = some 500 :=
  ⟨by decide, claim_C9_idempotence_amended.1 451 500 (by decide)⟩

/-- C5 counterexample: the two spellings do *not* normalize to the same
key — `normalize_name` of `build_time_trends.py` yields `chen daniel`
versus `daniel chen`, and `normalize_name` of `cross_validate_uss.py`
yields `daniel usa-pssp chen` versus `daniel chen`. -/
theorem claim_C5_counterexample :
    BTT.normalize_name (String.toList "CHEN Daniel USA-PSSP") ≠
      BTT.normalize_name (String.toList "Daniel Chen") ∧
    CVU.normalize_name (String.toList "CHEN Daniel USA-PSSP") ≠
      CVU.normalize_name (String.toList "Daniel Chen") := by
  decide

/-- C5 (amended): the two spellings normalize to the distinct keys
`chen daniel` and `daniel chen`; the pipeline still identifies them, but
through the reversed-name fallback of `build_time_trends` (lines 352-356),
which maps `daniel chen` to `chen daniel`, not through normalization
alone. -/
theorem claim_C5_same_athlete_amended :
    BTT.normalize_name (String.toList "CHEN Daniel USA-PSSP") =
      String.toList "chen daniel" ∧
    BTT.normalize_name (String.toList "Daniel Chen") = String.toList "daniel chen" ∧
    BTT.reversedName (BTT.normalize_name (String.toList "Daniel Chen")) =
      BTT.normalize_name (String.toList "CHEN Daniel USA-PSSP") := by
  decide

/-- No character of `mm ++ ':' :: rest` is whitespace when `mm` is all
digits and `rest` has no whitespace. -/
theorem noWs_colon_shape {mm rest : List Char} (hmd : ∀ c ∈ mm, isDigitChar c = true)
    (hrest : ∀ c ∈ rest, isWsChar c = false) :
    ∀ c ∈ mm ++ ':' :: rest, isWsChar c = false := by
  intro c hc
  rcases List.mem_append.mp hc with h1 | h1
  · exact wsChar_of_digit (hmd c h1)
  · rcases List.mem_cons.mp h1 with rfl | h2
    · decide
    · exact hrest c h2

/-- No character of `ss ++ '.' :: fs` is whitespace for digit lists. -/
theorem noWs_dec_shape {ss fs : List Char} (hsd : ∀ c ∈ ss, isDigitChar c = true)
    (hfd : ∀ c ∈ fs, isDigitChar c = true) :
    ∀ c ∈ ss ++ '.' :: fs, isWsChar c = false := by
  intro c hc
  rcases List.mem_append.mp hc with h1 | h1
  · exact wsChar_of_digit (hsd c h1)
  · rcases List.mem_cons.mp h1 with rfl | h2
    · decide
    · exact wsChar_of_digit (hfd c h2)

/-- `':'` does not occur in `ss ++ '.' :: fs` for digit lists. -/
theorem colon_not_mem_dec {ss fs : List Char} (hsd : ∀ c ∈ ss, isDigitChar c = true)
    (hfd : ∀ c ∈ fs, isDigitChar c = true) : ':' ∉ ss ++ '.' :: fs := by
  intro hc
  rcases List.mem_append.mp hc with h1 | h1
  · exact digit_ne_colon (hsd ':' h1) rfl
  · rcases List.mem_cons.mp h1 with h2 | h2
    · cases h2
    · exact digit_ne_colon (hfd ':' h2) rfl

/-- `BTT.parse_time` on a `SS.fff` digit shape. -/
theorem btt_parse_time_dec {ss fs : List Char} (hsne : ss ≠ [])
    (hsd : ∀ c ∈ ss, isDigitChar c = true) (hfd : ∀ c ∈ fs, isDigitChar c = true) :
    BTT.parse_time (ss ++ '.' :: fs) = some ((digitsVal ss : ℚ) + fracVal fs) := by
  unfold BTT.parse_time
  rw [if_neg (by simp [hsne])]
  dsimp only
  rw [stripWs_eq_self (noWs_dec_shape hsd hfd)]
  rw [if_neg (by simpa using colon_not_mem_dec hsd hfd)]
  exact parseFloat_dec hsne hsd hfd

/-- `BTT.parse_time` on an `MM:SS.fff` digit shape. -/
theorem btt_parse_time_mmss {mm ss fs : List Char} (hmne : mm ≠ [])
    (hmd : ∀ c ∈ mm, isDigitChar c = true) (hsne : ss ≠ [])
    (hsd : ∀ c ∈ ss, isDigitChar c = true) (hfd : ∀ c ∈ fs, isDigitChar c = true) :
    BTT.parse_time (mm ++ ':' :: (ss ++ '.' :: fs)) =
      some ((digitsVal mm : ℚ) * 60 + ((digitsVal ss : ℚ) + fracVal fs)) := by
  unfold BTT.parse_time
  rw [if_neg (by simp [hmne])]
  dsimp only
  rw [stripWs_eq_self (noWs_colon_shape hmd (noWs_dec_shape hsd hfd))]
  rw [if_pos (by simp)]
  rw [splitOnChar_append (fun hm => digit_ne_colon (hmd ':' hm) rfl)]
  rw [splitOnChar_of_not_mem (colon_not_mem_dec hsd hfd)]
  dsimp only
  rw [parseFloat_digits hmne hmd, parseFloat_dec hsne hsd hfd]

/-- C8: time parsing — `1:02.345` is 62.345 s, `41.267` is 41.267 s, the
empty string is unparseable, and in general `MM:SS.fff` is
`MM*60 + SS.fff` while a bare `SS.fff` is taken as-is. -/
theorem claim_C8_time_parsing :
    BTT.parse_time (String.toList "1:02.345") = some (62345 / 1000 : ℚ) ∧
    BTT.parse_time (String.toList "41.267") = some (41267 / 1000 : ℚ) ∧
    BTT.parse_time (String.toList "") = none ∧
    (∀ mm ss fs : List Char, mm ≠ [] → (∀ c ∈ mm, isDigitChar c = true) →
      ss ≠ [] → (∀ c ∈ ss, isDigitChar c = true) → (∀ c ∈ fs, isDigitChar c = true) →
      BTT.parse_time (mm ++ ':' :: (ss ++ '.' :: fs)) =
        some ((digitsVal mm : ℚ) * 60 + ((digitsVal ss : ℚ) + fracVal fs)) ∧
      BTT.parse_time (ss ++ '.' :: fs) = some ((digitsVal ss : ℚ) + fracVal fs)) := by
  refine ⟨?_, ?_, by decide, ?_⟩
  · norm_num +decide [BTT.parse_time, splitOnChar, stripWs, parseFloat,
      parseUnsignedFloat, digitsVal, digitVal, fracVal]
  · norm_num +decide [BTT.parse_time, splitOnChar, stripWs, parseFloat,
      parseUnsignedFloat, digitsVal, digitVal, fracVal]
  · intro mm ss fs hmne hmd hsne hsd hfd
    exact ⟨btt_parse_time_mmss hmne hmd hsne hsd hfd, btt_parse_time_dec hsne hsd hfd⟩

/-- Witness for C8 at `mm = "1"`, `ss = "02"`, `fs = "345"`. -/
theorem claim_C8_witness :
    BTT.parse_time (['1'] ++ ':' :: (['0', '2'] ++ '.' :: ['3', '4', '5'])) =
      some ((digitsVal ['1'] : ℚ) * 60 + ((digitsVal ['0', '2'] : ℚ) +
        fracVal ['3', '4', '5'])) ∧
    BTT.parse_time (['0', '2'] ++ '.' :: ['3', '4', '5']) =
      some ((digitsVal ['0', '2'] : ℚ) + fracVal ['3', '4', '5']) :=
  claim_C8_time_parsing.2.2.2 ['1'] ['0', '2'] ['3', '4', '5']
    (by decide) (by decide) (by decide) (by decide) (by decide)

/-- The separator count survives `stripWs`. -/
theorem count_stripWs_le (sep : Char) (s : List Char) :
    (stripWs s).count sep ≤ s.count sep := by
  unfold stripWs
  calc (((s.dropWhile isWsChar).reverse.dropWhile isWsChar).reverse).count sep
      = ((s.dropWhile isWsChar).reverse.dropWhile isWsChar).count sep :=
        List.count_reverse sep _
    _ ≤ ((s.dropWhile isWsChar).reverse).count sep :=
        (List.dropWhile_sublist isWsChar).count_le sep
    _ = (s.dropWhile isWsChar).count sep := List.count_reverse sep _
    _ ≤ s.count sep := (List.dropWhile_sublist isWsChar).count_le sep

/-- C10: the two independently implemented time parsers agree on every
string with at most one colon; on an `H:MM:SS.fff` shape they diverge —
`build_time_trends` returns `H*60 + MM` (dropping the seconds field) while
`cross_validate_uss` returns `H*3600 + MM*60 + SS.fff`. -/
theorem claim_C10_parser_divergence :
    (∀ s : List Char, s.count ':' ≤ 1 → BTT.parse_time s = CVU.parse_time s) ∧
    (∀ hh mm ss fs : List Char, hh ≠ [] → (∀ c ∈ hh, isDigitChar c = true) →
      mm ≠ [] → (∀ c ∈ mm, isDigitChar c = true) →
      ss ≠ [] → (∀ c ∈ ss, isDigitChar c = true) → (∀ c ∈ fs, isDigitChar c = true) →
      BTT.parse_time (hh ++ ':' :: (mm ++ ':' :: (ss ++ '.' :: fs))) =
        some ((digitsVal hh : ℚ) * 60 + (digitsVal mm : ℚ)) ∧
      CVU.parse_time (hh ++ ':' :: (mm ++ ':' :: (ss ++ '.' :: fs))) =
        some ((digitsVal hh : ℚ) * 3600 + (digitsVal mm : ℚ) * 60 +
          ((digitsVal ss : ℚ) + fracVal fs))) := by
  constructor
  · intro s hcount
    unfold BTT.parse_time CVU.parse_time
    by_cases hnil : s = []
    · rw [if_pos hnil, if_pos hnil]
    · rw [if_neg hnil, if_neg hnil]
      dsimp only
      by_cases hc : ':' ∈ stripWs s
      · rw [if_pos hc, if_pos hc]
        have h1 : 1 ≤ (stripWs s).count ':' := List.count_pos_iff.mpr hc
        have h2 : (stripWs s).count ':' ≤ 1 :=
          le_trans (count_stripWs_le ':' s) hcount
        have hlen : (splitOnChar ':' (stripWs s)).length = 2 := by
          rw [length_splitOnChar]
          omega
        obtain ⟨p0, p1, hsp⟩ := List.length_eq_two.mp hlen
        rw [hsp]
      · rw [if_neg hc, if_neg hc]
  · intro hh mm ss fs hhne hhd hmne hmd hsne hsd hfd
    have htail : ∀ c ∈ mm ++ ':' :: (ss ++ '.' :: fs), isWsChar c = false :=
      noWs_colon_shape hmd (noWs_dec_shape hsd hfd)
    have hnws : ∀ c ∈ hh ++ ':' :: (mm ++ ':' :: (ss ++ '.' :: fs)), isWsChar c = false :=
      noWs_colon_shape hhd htail
    have hsplit : splitOnChar ':' (hh ++ ':' :: (mm ++ ':' :: (ss ++ '.' :: fs))) =
        [hh, mm, ss ++ '.' :: fs] := by
      rw [splitOnChar_append (fun hm => digit_ne_colon (hhd ':' hm) rfl)]
      rw [splitOnChar_append (fun hm => digit_ne_colon (hmd ':' hm) rfl)]
      rw [splitOnChar_of_not_mem (colon_not_mem_dec hsd hfd)]
    constructor
    · unfold BTT.parse_time
      rw [if_neg (by simp [hhne])]
      dsimp only
      rw [stripWs_eq_self hnws]
      rw [if_pos (by simp), hsplit]
      dsimp only
      rw [parseFloat_digits hhne hhd, parseFloat_digits hmne hmd]
    · unfold CVU.parse_time
      rw [if_neg (by simp [hhne])]
      dsimp only
      rw [stripWs_eq_self hnws]
      rw [if_pos (by simp), hsplit]
      dsimp only
      rw [parseFloat_digits hhne hhd, parseFloat_digits hmne hmd,
        parseFloat_dec hsne hsd hfd]

/-- Witness for C10: agreement at `41.267` and divergence at
`1:02:03.5`. -/
theorem claim_C10_witness :
    BTT.parse_time (String.toList "41.267") = CVU.parse_time (String.toList "41.267") ∧
    BTT.parse_time (['1'] ++ ':' :: (['0', '2'] ++ ':' :: (['0', '3'] ++ '.' :: ['5']))) =
      some ((digitsVal ['1'] : ℚ) * 60 + (digitsVal ['0', '2'] : ℚ)) ∧
    CVU.parse_time (['1'] ++ ':' :: (['0', '2'] ++ ':' :: (['0', '3'] ++ '.' :: ['5']))) =
      some ((digitsVal ['1'] : ℚ) * 3600 + (digitsVal ['0', '2'] : ℚ) * 60 +
        ((digitsVal ['0', '3'] : ℚ) + fracVal ['5'])) := by
  refine ⟨claim_C10_parser_divergence.1 (String.toList "41.267") (by decide), ?_, ?_⟩
  · exact (claim_C10_parser_divergence.2 ['1'] ['0', '2'] ['0', '3'] ['5']
      (by decide) (by decide) (by decide) (by decide) (by decide) (by decide) (by decide)).1
  · exact (claim_C10_parser_divergence.2 ['1'] ['0', '2'] ['0', '3'] ['5']
      (by decide) (by decide) (by decide) (by decide) (by decide) (by decide) (by decide)).2

/-- A valid 500 m time lies in the configured interval [38, 150]. -/
theorem valid_500 {t : ℚ} (h : BTT.is_valid_time_for_distance t 500 = true) :
    (38 : ℚ) ≤ t ∧ t ≤ 150 := by
  have h' : (if t = 0 ∨ (500 : ℕ) = 0 then false
      else decide ((38 : ℚ) ≤ t ∧ t ≤ 150)) = true := h
  by_cases h0 : t = 0 ∨ (500 : ℕ) = 0
  · rw [if_pos h0] at h'
    cases h'
  · rw [if_neg h0] at h'
    exact of_decide_eq_true h'

/-- A valid time for an unconfigured distance lies in the generic
interval [25, 600]. -/
theorem valid_generic {t : ℚ} {d : ℕ} (hb : BTT.boundsFor d = none)
    (h : BTT.is_valid_time_for_distance t d = true) : (25 : ℚ) ≤ t ∧ t ≤ 600 := by
  unfold BTT.is_valid_time_for_distance at h
  rw [hb] at h
  by_cases h0 : t = 0 ∨ d = 0
  · rw [if_pos h0] at h
    cases h
  · rw [if_neg h0] at h
    exact of_decide_eq_true h

/-- Every record kept by loader branch 1 passed the plausibility filter. -/
theorem loadPdf_valid {rs : List BTT.RawPdfResult} {pr : List Char × BTT.ResultRec}
    (h : pr ∈ BTT.loadPdf rs) :
    BTT.is_valid_time_for_distance pr.2.time pr.2.distance = true := by
  rcases List.mem_filterMap.mp h with ⟨raw, _, heq⟩
  cases hpt : BTT.parse_time raw.time with
  | none => rw [hpt] at heq; cases heq
  | some t =>
    cases hsd : BTT.searchDigits raw.distance with
    | none => rw [hpt, hsd] at heq; cases heq
    | some d =>
      rw [hpt, hsd] at heq
      dsimp only at heq
      split_ifs at heq with hg
      injection heq with heq
      subst heq
      exact hg.2.2.2

/-- Every record kept by loader branch 2 passed the plausibility filter. -/
theorem loadHist_valid {rs : List BTT.RawHistResult} {pr : List Char × BTT.ResultRec}
    (h : pr ∈ BTT.loadHist rs) :
    BTT.is_valid_time_for_distance pr.2.time pr.2.distance = true := by
  rcases List.mem_filterMap.mp h with ⟨raw, _, heq⟩
  split_ifs at heq with ht0
  cases hpt : BTT.parse_time raw.time with
  | none => rw [hpt] at heq; cases heq
  | some t =>
    cases hsd : (match BTT.searchDigits raw.distance with
      | some rd => BTT.normalize_distance rd
      | none => none) with
    | none => rw [hpt, hsd] at heq; cases heq
    | some d =>
      rw [hpt, hsd] at heq
      dsimp only at heq
      split_ifs at heq with hg
      injection heq with heq
      subst heq
      exact hg.2.2.2

/-- Every record kept by loader branch 3 passed the plausibility filter. -/
theorem loadStl_valid {comps : List BTT.StlComp} {pr : List Char × BTT.ResultRec}
    (h : pr ∈ BTT.loadStl comps) :
    BTT.is_valid_time_for_distance pr.2.time pr.2.distance = true := by
  rcases List.mem_flatMap.mp h with ⟨comp, _, h2⟩
  dsimp only at h2
  rcases List.mem_flatMap.mp h2 with ⟨ev, _, h3⟩
  cases hnd : (match ev.distance with
    | some rd => BTT.normalize_distance rd
    | none => none) with
  | none =>
    rw [hnd] at h3
    cases h3
  | some d =>
    rw [hnd] at h3
    dsimp only at h3
    rcases List.mem_filterMap.mp h3 with ⟨row, _, heq⟩
    cases hpt : BTT.parse_time row.time with
    | none => rw [hpt] at heq; cases heq
    | some t =>
      rw [hpt] at heq
      dsimp only at heq
      split_ifs at heq with hg
      injection heq with heq
      subst heq
      exact hg.2.2

/-- Every record kept by the personal-best fallback passed the
plausibility filter. -/
theorem pbFallback_valid {ucomps : List (List Char)} {pbs : List BTT.PbDetail}
    {r : BTT.ResultRec} (h : r ∈ BTT.pbFallback ucomps pbs) :
    BTT.is_valid_time_for_distance r.time r.distance = true := by
  rcases List.mem_filterMap.mp h with ⟨pb, _, heq⟩
  dsimp only at heq
  split_ifs at heq with hskip
  cases hpt : BTT.parse_time pb.time with
  | none => rw [hpt] at heq; cases heq
  | some t =>
    cases hnd : (match pb.distance with
      | some rd => BTT.normalize_distance rd
      | none => none) with
    | none => rw [hpt, hnd] at heq; cases heq
    | some d =>
      rw [hpt, hnd] at heq
      dsimp only at heq
      split_ifs at heq with hg
      injection heq with heq
      subst heq
      exact hg.2

/-- C6: every result retained by any of the three loaders or the STL
personal-best fallback satisfies the plausibility filter for its distance;
in particular a 500 m result has time in [38, 150] seconds and a result
whose distance has no configured interval has time in [25, 600] seconds. -/
theorem claim_C6_range_invariant :
    ∀ (praws : List BTT.RawPdfResult) (hraws : List BTT.RawHistResult)
      (comps : List BTT.StlComp) (ucomps : List (List Char)) (pbs : List BTT.PbDetail)
      (k : List Char) (r : BTT.ResultRec),
      ((k, r) ∈ BTT.loadPdf praws ∨ (k, r) ∈ BTT.loadHist hraws ∨
        (k, r) ∈ BTT.loadStl comps ∨ r ∈ BTT.pbFallback ucomps pbs) →
      BTT.is_valid_time_for_distance r.time r.distance = true ∧
      (r.distance = 500 → (38 : ℚ) ≤ r.time ∧ r.time ≤ 150) ∧
      (BTT.boundsFor r.distance = none → (25 : ℚ) ≤ r.time ∧ r.time ≤ 600) := by
  intro praws hraws comps ucomps pbs k r h
  have hv : BTT.is_valid_time_for_distance r.time r.distance = true := by
    rcases h with h | h | h | h
    · exact loadPdf_valid h
    · exact loadHist_valid h
    · exact loadStl_valid h
    · exact pbFallback_valid h
  refine ⟨hv, ?_, ?_⟩
  · intro h500
    rw [h500] at hv
    exact valid_500 hv
  · intro hb
    exact valid_generic hb hv

/-- Witness for C6: a concrete 500 m PDF result with time `41` is retained
and its time lies in [38, 150]. -/
theorem claim_C6_witness :
    ((String.toList "chen daniel",
      ({ distance := 500, time := ((41 : ℕ) : ℚ), time_str := String.toList "41",
         competition := String.toList "2024 US Champs",
         date := some (BTT.dayNum 2023 10 15), place := some 1,
         source := .uss_pdf } : BTT.ResultRec)) ∈
      BTT.loadPdf [{ skater := String.toList "CHEN Daniel USA-PSSP",
                     time := String.toList "41",
                     distance := String.toList "500m",
                     competition := some (String.toList "2024 US Champs"),
                     date := String.toList "2023-10-15", rank := some 1 }]) ∧
    (38 : ℚ) ≤ ((41 : ℕ) : ℚ) ∧ ((41 : ℕ) : ℚ) ≤ 150 := by
  have hm : ((String.toList "chen daniel",
      ({ distance := 500, time := ((41 : ℕ) : ℚ), time_str := String.toList "41",
         competition := String.toList "2024 US Champs",
         date := some (BTT.dayNum 2023 10 15), place := some 1,
         source := .uss_pdf } : BTT.ResultRec)) ∈
      BTT.loadPdf [{ skater := String.toList "CHEN Daniel USA-PSSP",
                     time := String.toList "41",
                     distance := String.toList "500m",
                     competition := some (String.toList "2024 US Champs"),
                     date := String.toList "2023-10-15", rank := some 1 }]) := by decide
  refine ⟨hm, ?_⟩
  exact (claim_C6_range_invariant _ [] [] [] [] _ _ (Or.inl hm)).2.1 rfl

/-- Looking up the key of a single-record table finds that record. -/
theorem lookupFor_single_eq {u : CVU.UssRec} {k : List Char × List Char × List Char}
    (h : CVU.ussKey u = k) : CVU.lookupFor [u] k = [u] := by
  simp [CVU.lookupFor, h]

/-- Looking up any other key in a single-record table finds nothing. -/
theorem lookupFor_single_ne {u : CVU.UssRec} {k : List Char × List Char × List Char}
    (h : CVU.ussKey u ≠ k) : CVU.lookupFor [u] k = [] := by
  simp [CVU.lookupFor, h]

/-- C4: for a single web-scraped event matched to a single official 500 m
record under the key (normalized name, normalized competition, distance),
with both a truthy `best_rank` b and a truthy `place` p, the validator
emits exactly one Rank Discrepancy entry when b ≠ p and zero when
b = p. -/
theorem claim_C4_rank_discrepancy (sn so co en tq : List Char) (b p : ℤ)
    (hname : CVU.normalize_name so = CVU.normalize_name sn)
    (hcomp : CVU.normalize_comp_name co = CVU.normalize_comp_name en)
    (hb : b ≠ 0) (hp : p ≠ 0) :
    (CVU.discrepancies
        [{ skater := so, competition := co, distance := String.toList "500m",
           place := some p, time := tq }]
        [{ name := sn, events := [{ name := en, best_rank := some b }] }]).length =
      if b = p then 0 else 1 := by
  have hkey : CVU.ussKey
      { skater := so, competition := co, distance := String.toList "500m",
        place := some p, time := tq } =
      (CVU.normalize_name sn, CVU.normalize_comp_name en, String.toList "500m") := by
    simp only [CVU.ussKey, hname, hcomp]
    rw [show lowerStr (String.toList "500m") = String.toList "500m" from by decide]
  have h500 := lookupFor_single_eq hkey
  have h1000 : CVU.lookupFor
      [{ skater := so, competition := co, distance := String.toList "500m",
         place := some p, time := tq }]
      (CVU.normalize_name sn, CVU.normalize_comp_name en, String.toList "1000m") = [] := by
    refine lookupFor_single_ne ?_
    rw [hkey]
    simp +decide
  have h1500 : CVU.lookupFor
      [{ skater := so, competition := co, distance := String.toList "500m",
         place := some p, time := tq }]
      (CVU.normalize_name sn, CVU.normalize_comp_name en, String.toList "1500m") = [] := by
    refine lookupFor_single_ne ?_
    rw [hkey]
    simp +decide
  have h3000 : CVU.lookupFor
      [{ skater := so, competition := co, distance := String.toList "500m",
         place := some p, time := tq }]
      (CVU.normalize_name sn, CVU.normalize_comp_name en, String.toList "3000m") = [] := by
    refine lookupFor_single_ne ?_
    rw [hkey]
    simp +decide
  unfold CVU.discrepancies CVU.matchesFor
  simp only [List.flatMap_cons, List.flatMap_nil, List.append_nil, CVU.distProbes,
    List.filterMap_cons, List.filterMap_nil]
  rw [h500, h1000, h1500, h3000]
  dsimp only
  simp only [List.filter_cons, List.filter_nil, CVU.truthyRank]
  by_cases hbp : b = p
  · subst hbp
    simp [hb]
  · simp [hb, hp, hbp]

/-- Witness for C4 at the spec's scenario: SHUAI Sean, the 2024 US Short
Track Championship, 500 m, place 4 versus best_rank 5. -/
theorem claim_C4_witness :
    (CVU.discrepancies
        [{ skater := String.toList "SHUAI Sean",
           competition := String.toList "2024 US Short Track Championship",
           distance := String.toList "500m",
           place := some 4, time := String.toList "41.267" }]
        [{ name := String.toList "Sean Shuai",
           events := [{ name := String.toList "2024 US Short Track Championship",
                        best_rank := some 5 }] }]).length = 1 := by
  have h := claim_C4_rank_discrepancy (String.toList "Sean Shuai")
    (String.toList "SHUAI Sean") (String.toList "2024 US Short Track Championship")
    (String.toList "2024 US Short Track Championship") (String.toList "41.267")
    5 4 (by decide) rfl (by decide) (by decide)
  rw [h]
  decide

/-- Membership in a stable insertion. -/
theorem insertSorted_mem {a r : BTT.ResultRec} {l : List BTT.ResultRec} :
    a ∈ BTT.insertSorted r l ↔ a = r ∨ a ∈ l := by
  induction l with
  | nil => simp [BTT.insertSorted]
  | cons e rest ih =>
    unfold BTT.insertSorted
    by_cases hle : BTT.sortKeyLe e r
    · rw [if_pos hle]
      simp only [List.mem_cons, ih]
      try tauto
    · rw [if_neg hle]
      simp only [List.mem_cons]
      try tauto

/-- Membership through the insertion-sort fold. -/
theorem foldl_insert_mem (l : List BTT.ResultRec) :
    ∀ (acc : List BTT.ResultRec) (a : BTT.ResultRec),
      a ∈ l.foldl (fun acc r => BTT.insertSorted r acc) acc ↔ a ∈ acc ∨ a ∈ l := by
  induction l with
  | nil => intro acc a; simp
  | cons r l ih =>
    intro acc a
    rw [List.foldl_cons, ih]
    rw [insertSorted_mem]
    simp
    tauto

/-- `sortRecs` preserves membership. -/
theorem sortRecs_mem {a : BTT.ResultRec} {l : List BTT.ResultRec} :
    a ∈ BTT.sortRecs l ↔ a ∈ l := by
  unfold BTT.sortRecs
  rw [foldl_insert_mem]
  simp

/-- Folding the merge step over an all-dated pairwise-close cluster keeps a
single record, the running minimum. -/
theorem foldl_dedupStep_cluster {l : List BTT.ResultRec}
    (hdated : ∀ r ∈ l, r.date ≠ none)
    (hclose : ∀ r1 ∈ l, ∀ r2 ∈ l, ∀ d1 d2 : ℤ, r1.date = some d1 → r2.date = some d2 →
      (d1 - d2).natAbs ≤ 2) :
    ∀ (xs : List BTT.ResultRec) (e : BTT.ResultRec), (∀ r ∈ xs, r ∈ l) → e ∈ l →
      ∃ m, xs.foldl BTT.dedupStep [e] = [m] ∧ m ∈ l ∧ m.time ≤ e.time ∧
        ∀ r ∈ xs, m.time ≤ r.time := by
  intro xs
  induction xs with
  | nil =>
    intro e _ he
    exact ⟨e, rfl, he, le_refl _, by simp⟩
  | cons x xs ih =>
    intro e hsub he
    have hx : x ∈ l := hsub x (by simp)
    obtain ⟨dx, hdx⟩ := Option.ne_none_iff_exists'.mp (hdated x hx)
    obtain ⟨de, hde⟩ := Option.ne_none_iff_exists'.mp (hdated e he)
    have hnear : (dx - de).natAbs ≤ 2 := hclose x hx e he dx de hdx hde
    have hfind : BTT.findDatedWithin dx [e] = some (0, e) := by
      unfold BTT.findDatedWithin
      rw [hde]
      dsimp only
      rw [if_pos hnear]
    rw [List.foldl_cons]
    by_cases hlt : x.time < e.time
    · have hstep : BTT.dedupStep [e] x = [x] := by
        unfold BTT.dedupStep
        rw [hdx]
        dsimp only
        rw [hfind]
        dsimp only
        rw [if_pos hlt]
        rfl
      rw [hstep]
      obtain ⟨m, hm, hml, hme, hmall⟩ := ih x (fun r hr => hsub r (by simp [hr])) hx
      refine ⟨m, hm, hml, le_trans hme (le_of_lt hlt), ?_⟩
      intro r hr
      rcases List.mem_cons.mp hr with rfl | hr2
      · exact hme
      · exact hmall r hr2
    · have hstep : BTT.dedupStep [e] x = [e] := by
        unfold BTT.dedupStep
        rw [hdx]
        dsimp only
        rw [hfind]
        dsimp only
        rw [if_neg hlt]
      rw [hstep]
      obtain ⟨m, hm, hml, hme, hmall⟩ := ih e (fun r hr => hsub r (by simp [hr])) he
      refine ⟨m, hm, hml, hme, ?_⟩
      intro r hr
      rcases List.mem_cons.mp hr with rfl | hr2
      · exact le_trans hme (le_of_not_lt hlt)
      · exact hmall r hr2

/-- C2 counterexample: with dated results at days 0, 2 and 4 and times
40 < 41 < 42, the loop merges the day-2 record into the day-0 record (its
first in-range predecessor) and then keeps the day-4 record; so of the
pair (day 2, 41 s) and (day 4, 42 s), whose dates differ by exactly 2
days, the *slower* one survives and the faster one is gone. -/
theorem claim_C2_counterexample :
    BTT.dedupeTimeline
        [{ distance := 500, time := 40, time_str := String.toList "40.0",
           competition := String.toList "A", date := some 0, place := none,
           source := .uss_pdf },
         { distance := 500, time := 41, time_str := String.toList "41.0",
           competition := String.toList "B", date := some 2, place := none,
           source := .uss_pdf },
         { distance := 500, time := 42, time_str := String.toList "42.0",
           competition := String.toList "C", date := some 4, place := none,
           source := .uss_pdf }] =
      [{ distance := 500, time := 40, time_str := String.toList "40.0",
         competition := String.toList "A", date := some 0, place := none,
         source := .uss_pdf },
       { distance := 500, time := 42, time_str := String.toList "42.0",
         competition := String.toList "C", date := some 4, place := none,
         source := .uss_pdf }] ∧
    ((2 : ℤ) - 4).natAbs ≤ 2 ∧ (41 : ℚ) < 42 ∧
    ({ distance := 500, time := 41, time_str := String.toList "41.0",
       competition := String.toList "B", date := some 2, place := none,
       source := .uss_pdf } : BTT.ResultRec) ∉
      BTT.dedupeTimeline
        [{ distance := 500, time := 40, time_str := String.toList "40.0",
           competition := String.toList "A", date := some 0, place := none,
           source := .uss_pdf },
         { distance := 500, time := 41, time_str := String.toList "41.0",
           competition := String.toList "B", date := some 2, place := none,
           source := .uss_pdf },
         { distance := 500, time := 42, time_str := String.toList "42.0",
           competition := String.toList "C", date := some 4, place := none,
           source := .uss_pdf }] ∧
    ({ distance := 500, time := 42, time_str := String.toList "42.0",
       competition := String.toList "C", date := some 4, place := none,
       source := .uss_pdf } : BTT.ResultRec) ∈
      BTT.dedupeTimeline
        [{ distance := 500, time := 40, time_str := String.toList "40.0",
           competition := String.toList "A", date := some 0, place := none,
           source := .uss_pdf },
         { distance := 500, time := 41, time_str := String.toList "41.0",
           competition := String.toList "B", date := some 2, place := none,
           source := .uss_pdf },
         { distance := 500, time := 42, time_str := String.toList "42.0",
           competition := String.toList "C", date := some 4, place := none,
           source := .uss_pdf }] := by
  decide

/-- C2 (amended): each incoming dated result is merged with the *first*
already-kept dated record within 2 days, the faster time winning in
place; consequently when all results at a distance are dated and pairwise
within 2 days, exactly one record remains and its time is minimal. -/
theorem claim_C2_dedup_amended :
    ∀ l : List BTT.ResultRec, l ≠ [] →
      (∀ r ∈ l, r.date ≠ none) →
      (∀ r1 ∈ l, ∀ r2 ∈ l, ∀ d1 d2 : ℤ, r1.date = some d1 → r2.date = some d2 →
        (d1 - d2).natAbs ≤ 2) →
      ∃ m, BTT.dedupeTimeline l = [m] ∧ m ∈ l ∧ ∀ r ∈ l, m.time ≤ r.time := by
  intro l hne hdated hclose
  unfold BTT.dedupeTimeline
  obtain ⟨s0, ss, hss⟩ : ∃ s0 ss, BTT.sortRecs l = s0 :: ss := by
    cases hsr : BTT.sortRecs l with
    | nil =>
      exfalso
      rcases List.exists_mem_of_ne_nil l hne with ⟨a, ha⟩
      have := sortRecs_mem.mpr ha
      rw [hsr] at this
      cases this
    | cons a b => exact ⟨a, b, rfl⟩
  have hs0 : s0 ∈ l := sortRecs_mem.mp (by rw [hss]; simp)
  have hsub : ∀ r ∈ ss, r ∈ l := fun r hr => sortRecs_mem.mp (by rw [hss]; simp [hr])
  rw [hss, List.foldl_cons]
  have hstep0 : BTT.dedupStep [] s0 = [s0] := by
    obtain ⟨d0, hd0⟩ := Option.ne_none_iff_exists'.mp (hdated s0 hs0)
    unfold BTT.dedupStep
    rw [hd0]
    rfl
  rw [hstep0]
  obtain ⟨m, hm, hml, hme, hmall⟩ := foldl_dedupStep_cluster hdated hclose ss s0 hsub hs0
  refine ⟨m, hm, hml, ?_⟩
  intro r hr
  have hrs : r ∈ BTT.sortRecs l := sortRecs_mem.mpr hr
  rw [hss] at hrs
  rcases List.mem_cons.mp hrs with rfl | hr2
  · exact hme
  · exact hmall r hr2

/-- Witness for C2 (amended): a two-record dated cluster one day apart
keeps exactly the faster record. -/
theorem claim_C2_witness :
    ∃ m, BTT.dedupeTimeline c2pair = [m] ∧ m ∈ c2pair ∧
      ∀ r ∈ c2pair, m.time ≤ r.time := by
  refine claim_C2_dedup_amended c2pair (by decide) (by decide) ?_
  intro r1 h1 r2 h2 d1 d2 hd1 hd2
  fin_cases h1 <;> fin_cases h2 <;>
    (injection hd1 with e1; injection hd2 with e2; subst e1; subst e2; decide)

/-- C1 (code bug): `dedupe_results` sorts each group by the raw time
*string*, so with times `2:12.734` and `10:05.000` in one group it keeps
`10:05.000` (lexicographically smaller), whose duration 605 s is larger
than 132.734 s — contradicting "keep best time per
skater/distance/category". -/
theorem claim_C1_dedupe_keeps_lex_min_not_fastest :
    PDFS.dedupe_results
        [⟨1, String.toList "Marcus Howard", String.toList "2:12.734",
          String.toList "3000m", String.toList "Men"⟩,
         ⟨2, String.toList "Marcus Howard", String.toList "10:05.000",
          String.toList "3000m", String.toList "Men"⟩] =
      [⟨2, String.toList "Marcus Howard", String.toList "10:05.000",
        String.toList "3000m", String.toList "Men"⟩] ∧
    BTT.parse_time (String.toList "10:05.000") = some 605 ∧
    BTT.parse_time (String.toList "2:12.734") = some (132734 / 1000 : ℚ) ∧
    (132734 / 1000 : ℚ) < 605 := by
  refine ⟨by decide, ?_, ?_, by norm_num⟩
  · norm_num +decide [BTT.parse_time, splitOnChar, stripWs, parseFloat,
      parseUnsignedFloat, digitsVal, digitVal, fracVal]
  · norm_num +decide [BTT.parse_time, splitOnChar, stripWs, parseFloat,
      parseUnsignedFloat, digitsVal, digitVal, fracVal]

/-- C3 (code bug): `source_priority` (line 399) is defined but never read
by the deduplication, so within one same-day cluster the lower-priority
`stl` record wins over the higher-priority `uss_pdf` record purely on
time. -/
theorem claim_C3_source_priority_unused :
    BTT.dedupeTimeline
        [{ distance := 500, time := 41, time_str := String.toList "41.0",
           competition := String.toList "X", date := some 0, place := none,
           source := .uss_pdf },
         { distance := 500, time := 40, time_str := String.toList "40.0",
           competition := String.toList "Y", date := some 0, place := none,
           source := .stl }] =
      [{ distance := 500, time := 40, time_str := String.toList "40.0",
         competition := String.toList "Y", date := some 0, place := none,
         source := .stl }] ∧
    BTT.source_priority .uss_pdf < BTT.source_priority .stl := by
  exact ⟨by decide, by decide⟩

